import Mathlib

/-!
Verification development for the OMD bond-exchange calculator.

The repository consists of `src/logic.py` (bond valuation formulas and the
heuristic PDF-table extraction) and `src/app.py` (the per-row calculation loop
and portfolio aggregation).  This file gives a shallow embedding of those parts
in Lean 4 and proves/refutes the frozen specification claims about them.

Modelling conventions:
* Python floats are modelled as exact rationals (`ℚ`).  The floating-point
  power operator `**` (used with fractional exponents in the discounting and
  index-forward formulas) is not rational-valued, so it is passed in as an
  uninterpreted parameter `fpow : ℚ → ℚ → ℚ`; no claim settled here depends
  on the value of a power, only on the data flow around it.
* `pandas` timestamps are modelled as calendar dates (year, month, day);
  comparison of timestamps is lexicographic on these fields, and subtraction
  of timestamps (`.days`) is modelled by a standard proleptic-Gregorian
  day-number function (`rataDie`).
* Python exceptions are modelled with `Option`/dedicated result constructors:
  a `none`/`raise` value marks the places where the source raises.
-/

namespace OMD

/-! ### Calendar dates (model of `pandas.Timestamp` / `datetime.date`) -/

structure Date where
  year : Int
  month : Nat
  day : Nat
deriving DecidableEq, Repr

/-- Gregorian leap-year rule (as used by `datetime`). -/
def isLeap (y : Int) : Bool :=
  decide (y % 4 = 0) && (decide (y % 100 ≠ 0) || decide (y % 400 = 0))

def daysInMonth (y : Int) (m : Nat) : Nat :=
  if m = 1 then 31 else if m = 2 then (if isLeap y then 29 else 28)
  else if m = 3 then 31 else if m = 4 then 30 else if m = 5 then 31
  else if m = 6 then 30 else if m = 7 then 31 else if m = 8 then 31
  else if m = 9 then 30 else if m = 10 then 31 else if m = 11 then 30
  else if m = 12 then 31 else 0

/-- A (year, month, day) triple that `datetime.date` would accept. -/
def validDate (d : Date) : Bool :=
  decide (1 ≤ d.month) && decide (d.month ≤ 12) &&
  decide (1 ≤ d.day) && decide (d.day ≤ daysInMonth d.year d.month)

/-- Day number of a civil date (days since 1970-01-01, proleptic Gregorian).
Models subtraction of `pandas` timestamps: `(a - b).days = rataDie a - rataDie b`.
`/` on `Int` is floor division for the positive divisors used here. -/
def rataDie (d : Date) : Int :=
  let y : Int := if d.month ≤ 2 then d.year - 1 else d.year
  let era : Int := y / 400
  let yoe : Int := y - era * 400
  let mp : Int := if d.month > 2 then (d.month : Int) - 3 else (d.month : Int) + 9
  let doy : Int := (153 * mp + 2) / 5 + (d.day : Int) - 1
  let doe : Int := yoe * 365 + yoe / 4 - yoe / 100 + doy
  era * 146097 + doe - 719468

/-- Strict chronological order of timestamps (lexicographic on y, m, d). -/
def dateLtB (a b : Date) : Bool :=
  decide (a.year < b.year) ||
  (decide (a.year = b.year) &&
    (decide (a.month < b.month) ||
      (decide (a.month = b.month) && decide (a.day < b.day))))

/-- `a >= b` on timestamps; with the total chronological order this is the
negation of `a < b`, which is how the model expresses `set_date >= mat_date`. -/
def dateGeB (a b : Date) : Bool := ! dateLtB a b

/-- Compare two dates by (month, day) only.  Models the source's
`date(2000, x.month, x.day) < date(2000, y.month, y.day)` comparison
(year 2000 is a leap year, so the construction never raises for valid input
dates and the comparison reduces to the (month, day) pair). -/
def monthDayLtB (a b : Date) : Bool :=
  decide (a.month < b.month) ||
  (decide (a.month = b.month) && decide (a.day < b.day))

/-- Model of `Timestamp.replace(year=y)`: raises (`none`) when the resulting
(month, day) is invalid in the new year (Feb 29 of a non-leap year). -/
def replaceYear (d : Date) (y : Int) : Option Date :=
  if validDate ⟨y, d.month, d.day⟩ then some ⟨y, d.month, d.day⟩ else none

/-! ### `BondLogic.calculate_clean_price_formula` (`src/logic.py:21-119`) -/

/-- Result of one step of the backward coupon-date walk
(`while coupon_date > set_date: coupon_date = coupon_date.replace(year=...-1)`).
`raiseErr` marks the `ValueError` raised by `replace` on a Feb-29 date moved to
a non-leap year; `ok next prev` returns the first coupon date after settlement
together with the preceding one.  `fuelOut` is unreachable for the fuel used
by the caller (the loop runs at most `mat.year - set.year + 1` times). -/
inductive WalkResult where
  | fuelOut
  | raiseErr
  | ok (next_coupon prev_coupon : Date)
deriving DecidableEq, Repr

/-- The backward year-by-year walk from `logic.py:63-71`.  The source runs the
identical loop twice (lines 55-58 and 63-66); both perform the same `replace`
calls, so one model covers both, including where they raise.
`prev_coupon` (line 71) recomputes `next.replace(year=next.year-1)`, which is
exactly the last successful `replace` result, returned here as the second
component. -/
def couponWalk (set_d : Date) : Nat → Date → WalkResult
  | 0, _ => .fuelOut
  | fuel + 1, c =>
    match replaceYear c (c.year - 1) with
    | none => .raiseErr
    | some c' =>
      if dateLtB set_d c' then couponWalk set_d fuel c'
      else .ok c c'

/-- `sum_coupons` loop (`logic.py:98-101`): `for i in range(1, int(n)+1)`
accumulating `C / (1+y) ** (i - 1 + f)`. -/
def couponSum (fpow : ℚ → ℚ → ℚ) (C y f : ℚ) : Nat → ℚ
  | 0 => 0
  | k + 1 => couponSum fpow C y f k + C / fpow (1 + y) ((k : ℚ) + f)

/-- The three syntactically distinct outcomes of
`calculate_clean_price_formula`: the matured branch `return 0.0, 0.0`
(a 2-tuple, line 41), an uncaught `ValueError` from the coupon-date walk,
and the normal `return clean_price, acc_int, dirty_price` 3-tuple. -/
inductive PriceResult where
  | pair2 (clean acc : ℚ)
  | raiseErr
  | triple (clean acc dirty : ℚ)
deriving DecidableEq, Repr

/-- `BondLogic.calculate_clean_price_formula` (`logic.py:21-119`) with
`redemption = 100` (the default, and the only value used by the caller).
`fpow` stands for the float `**` operator. -/
def calculate_clean_price_formula (fpow : ℚ → ℚ → ℚ)
    (yield_rate coupon_rate : ℚ) (maturity_date settlement_date : Date) :
    PriceResult :=
  if dateGeB settlement_date maturity_date then .pair2 0 0
  else
    let fuel : Nat := (maturity_date.year - settlement_date.year + 1).toNat
    match couponWalk settlement_date fuel maturity_date with
    | .fuelOut => .raiseErr
    | .raiseErr => .raiseErr
    | .ok next_coupon_date prev_coupon_date =>
      let days_to_next : Int := rataDie next_coupon_date - rataDie settlement_date
      let f : ℚ := (days_to_next : ℚ) / 365
      let n : Int := (maturity_date.year - next_coupon_date.year) + 1
      let C : ℚ := 100 * coupon_rate
      let y : ℚ := yield_rate
      let sum_coupons : ℚ := couponSum fpow C y f n.toNat
      let redemption_term : ℚ := 100 / fpow (1 + y) ((n : ℚ) - 1 + f)
      let dirty_price : ℚ := sum_coupons + redemption_term
      let days_accrued : Int := rataDie settlement_date - rataDie prev_coupon_date
      let acc_int : ℚ := C * ((days_accrued : ℚ) / 365)
      let clean_price : ℚ := dirty_price - acc_int
      .triple clean_price acc_int dirty_price

/-! ### `BondLogic.calculate_coupon_effect` (`logic.py:122-164`) -/

/-- `calculate_coupon_effect`: compares settlement and maturity by
(month, day) standardized to year 2000; magnitude `rate * |nominal|` when
settlement's (month, day) is strictly earlier; sign follows the sign of
`nominal`.  The `bond_type` argument is accepted but unused, as in the
source. -/
def calculate_coupon_effect (settlement_date maturity_date : Date)
    (rate nominal : ℚ) (bond_type : List Char) : ℚ :=
  let _ := bond_type
  let effect : ℚ :=
    if monthDayLtB settlement_date maturity_date then rate * |nominal| else 0
  if nominal < 0 then -|effect| else |effect|

/-! ### `BondLogic.calculate_uvr_forward` (`logic.py:167-179`) -/

/-- `calculate_uvr_forward`:
`uvr_val * (1 + inflation) ** (days_remaining / 365)` where `days_remaining`
is the day count from settlement to December 31 of the settlement year. -/
def calculate_uvr_forward (fpow : ℚ → ℚ → ℚ)
    (uvr_val inflation : ℚ) (settlement_date : Date) : ℚ :=
  let last_day : Date := ⟨settlement_date.year, 12, 31⟩
  let days_remaining : Int := rataDie last_day - rataDie settlement_date
  uvr_val * fpow (1 + inflation) ((days_remaining : ℚ) / 365)

/-! ### String utilities (models of the Python `str` operations used) -/

/-- Whitespace for `str.strip()` / `str.split()` (ASCII whitespace; the
document lines only contain these). -/
def isSpaceC (c : Char) : Bool :=
  c = ' ' || c = '\t' || c = '\n' || c = '\r' || c = '\x0b' || c = '\x0c'

def isDigitC (c : Char) : Bool := '0' ≤ c && c ≤ '9'

def isAsciiAlphaC (c : Char) : Bool :=
  ('a' ≤ c && c ≤ 'z') || ('A' ≤ c && c ≤ 'Z')

def isUpperAlnumC (c : Char) : Bool :=
  ('A' ≤ c && c ≤ 'Z') || isDigitC c

/-- `str.strip()`. -/
def pyStrip (s : List Char) : List Char :=
  ((s.dropWhile isSpaceC).reverse.dropWhile isSpaceC).reverse

/-- `str.split()` with no argument: split on runs of whitespace, no empty
fields.  `acc` is the current word, reversed. -/
def splitWSAux : List Char → List Char → List (List Char)
  | [], acc => if acc.isEmpty then [] else [acc.reverse]
  | c :: cs, acc =>
    if isSpaceC c then
      if acc.isEmpty then splitWSAux cs [] else acc.reverse :: splitWSAux cs []
    else splitWSAux cs (c :: acc)

def splitWS (s : List Char) : List (List Char) := splitWSAux s []

/-- `str.upper()` restricted to the alphabet that occurs in this corpus
(ASCII letters plus the accented Spanish letters appearing in the header
phrases). -/
def pyUpperC (c : Char) : Char :=
  if 'a' ≤ c && c ≤ 'z' then Char.ofNat (c.toNat - 32)
  else if c = 'á' then 'Á' else if c = 'é' then 'É' else if c = 'í' then 'Í'
  else if c = 'ó' then 'Ó' else if c = 'ú' then 'Ú' else if c = 'ñ' then 'Ñ'
  else if c = 'ü' then 'Ü' else c

def pyUpperL (s : List Char) : List Char := s.map pyUpperC

/-- `str.lower()` restricted to ASCII letters (used on month abbreviations). -/
def pyLowerC (c : Char) : Char :=
  if 'A' ≤ c && c ≤ 'Z' then Char.ofNat (c.toNat + 32) else c

/-- `pat in s` (Python substring containment). -/
def listStartsWith : List Char → List Char → Bool
  | [], _ => true
  | _ :: _, [] => false
  | p :: ps, c :: cs => p = c && listStartsWith ps cs

def containsSub (pat : List Char) : List Char → Bool
  | [] => pat.isEmpty
  | c :: cs => listStartsWith pat (c :: cs) || containsSub pat cs

def digitsToNat (l : List Char) : Nat :=
  l.foldl (fun acc c => acc * 10 + (c.toNat - '0'.toNat)) 0

/-- Model of Python `float(s)` on decimal literals: optional sign, digits with
an optional single '.', optional exponent part; `none` when the string is not
such a literal (`float` raises `ValueError` there).  The value is the exact
rational denoted by the literal (the model abstracts from IEEE rounding, and
omits the `inf`/`nan`/underscore forms, which never occur in this corpus). -/
def pyFloat (s0 : List Char) : Option ℚ :=
  let s := pyStrip s0
  let (sign, s1) : ℚ × List Char :=
    match s with
    | '+' :: t => (1, t)
    | '-' :: t => (-1, t)
    | _ => (1, s)
  let ip := s1.takeWhile isDigitC
  let r1 := s1.dropWhile isDigitC
  let (fp, r2) : List Char × List Char :=
    match r1 with
    | '.' :: t => (t.takeWhile isDigitC, t.dropWhile isDigitC)
    | _ => ([], r1)
  if ip.length + fp.length = 0 then none
  else
    let mant : ℚ := (digitsToNat (ip ++ fp) : ℚ) / (10 : ℚ) ^ fp.length
    match r2 with
    | [] => some (sign * mant)
    | e :: t =>
      if e = 'e' || e = 'E' then
        let (esign, t1) : Int × List Char :=
          match t with
          | '+' :: u => (1, u)
          | '-' :: u => (-1, u)
          | _ => (1, t)
        let ed := t1.takeWhile isDigitC
        let rest := t1.dropWhile isDigitC
        if ed.length = 0 || ! rest.isEmpty then none
        else some (sign * mant * (10 : ℚ) ^ (esign * (digitsToNat ed : Int)))
      else none

/-! ### `PDFParser.extract_bond_row_data` helpers (`logic.py:344-394`) -/

/-- `parse_number` (`logic.py:366-394`): remove every `'%'`
(`n_str.replace('%','')`), then resolve the Spanish separators — if both `.`
and `,` occur, `.` is a thousands separator and `,` the decimal point; if only
`,` occurs it is the decimal point; if only `.` occurs it is a thousands
separator — then parse as a float, `none` on failure. -/
def parse_number (n_str : List Char) : Option ℚ :=
  let n := n_str.filter (fun c => ! c = '%')
  let n :=
    if n.contains ',' && n.contains '.' then
      (n.filter (fun c => ! c = '.')).map (fun c => if c = ',' then '.' else c)
    else if n.contains ',' then
      n.map (fun c => if c = ',' then '.' else c)
    else if n.contains '.' then
      n.filter (fun c => ! c = '.')
    else n
  pyFloat n

def spanishMonthNum (m : List Char) : Nat :=
  if m = "ene".data then 1 else if m = "feb".data then 2
  else if m = "mar".data then 3 else if m = "abr".data then 4
  else if m = "may".data then 5 else if m = "jun".data then 6
  else if m = "jul".data then 7 else if m = "ago".data then 8
  else if m = "sep".data then 9 else if m = "oct".data then 10
  else if m = "nov".data then 11 else if m = "dic".data then 12 else 0

/-- Continuation of `parse_spanish_date` after the day group and its `-`:
exactly three letters, a `-`, then 2 to 4 digits (greedy, trailing input
ignored, as `re.match` only anchors the start). -/
def spanishDateTail (dval : Nat) (rest : List Char) : Option Date :=
  match rest with
  | m1 :: m2 :: m3 :: '-' :: rest2 =>
    if isAsciiAlphaC m1 && isAsciiAlphaC m2 && isAsciiAlphaC m3 then
      let mnum := spanishMonthNum [pyLowerC m1, pyLowerC m2, pyLowerC m3]
      if mnum = 0 then none
      else
        let ys := (rest2.takeWhile isDigitC).take 4
        if ys.length < 2 then none
        else
          let y0 := digitsToNat ys
          let ynum : Int := if y0 < 100 then (y0 : Int) + 2000 else (y0 : Int)
          if validDate ⟨ynum, mnum, dval⟩ then some ⟨ynum, mnum, dval⟩
          else none
    else none
  | _ => none

/-- `parse_spanish_date` (`logic.py:344-363`): the regex
`(\d{1,2})-([a-zA-Z]{3})-(\d{2,4})` matched at the start of the token, with
the day group greedy (two digits preferred, backtracking to one); invalid
calendar dates yield `none` (the `try/except` around `date(...)`). -/
def parse_spanish_date (s : List Char) : Option Date :=
  match s with
  | a :: b :: rest =>
    if isDigitC a && isDigitC b then
      match rest with
      | '-' :: rest2 => spanishDateTail (digitsToNat [a, b]) rest2
      | _ => none
    else if isDigitC a && b = '-' then spanishDateTail (digitsToNat [a]) rest
    else none
  | _ => none

/-! ### `PDFParser.extract_bond_row_data` (`logic.py:319-465`) -/

structure BondRow where
  ISIN : List Char
  Maturity : Option Date
  Denom : List Char
  Coupon : ℚ
  Yield : ℚ
  Price : ℚ
  Nominal : ℚ
deriving DecidableEq, Repr

/-- The price-anchor search (`logic.py:422-428`): index of the first numeric
value in `[40, 160]`, `none` when absent. -/
def priceIdx : List ℚ → Option Nat
  | [] => none
  | n :: ns =>
    if decide (40 ≤ n) && decide (n ≤ 160) then some 0
    else (priceIdx ns).map (· + 1)

structure FieldAssign where
  Coupon : ℚ
  Yield : ℚ
  Price : ℚ
  Nominal : ℚ
deriving DecidableEq, Repr

/-- The heuristic assignment of the ordered numeric list onto
(coupon, yield, price, face value) (`logic.py:430-463`): pivot on the price
anchor when found, otherwise fall back to positional assignment by count. -/
def assignFields (nums : List ℚ) : FieldAssign :=
  match priceIdx nums with
  | some i =>
    let price := nums.getD i 0
    let nominal := if i + 1 < nums.length then nums.getD (i + 1) 0 else 0
    if i = 1 then ⟨0, nums.getD 0 0, price, nominal⟩
    else if 2 ≤ i then ⟨nums.getD (i - 2) 0, nums.getD (i - 1) 0, price, nominal⟩
    else ⟨0, 0, price, nominal⟩
  | none =>
    if 4 ≤ nums.length then ⟨nums.getD 0 0, nums.getD 1 0, nums.getD 2 0, nums.getD 3 0⟩
    else if nums.length = 3 then ⟨0, nums.getD 0 0, nums.getD 1 0, nums.getD 2 0⟩
    else ⟨0, 0, 0, 0⟩

/-- State of the token-classification loop (`logic.py:399-414`): the running
maturity, denomination and ordered numeric list (later denomination/date
tokens overwrite earlier ones, numbers append). -/
structure TokState where
  mat : Option Date
  denom : List Char
  nums : List ℚ
deriving DecidableEq, Repr

def tokStep (st : TokState) (p : List Char) : TokState :=
  if pyUpperL p = "UVR".data || pyUpperL p = "COP".data || pyUpperL p = "PESOS".data then
    { st with denom := if pyUpperL p = "UVR".data then "UVR".data else "COP".data }
  else
    match parse_spanish_date p with
    | some d => { st with mat := some d }
    | none =>
      match parse_number p with
      | some v => { st with nums := st.nums ++ [v] }
      | none => st

/-- `^[A-Z0-9]{10,12}$` full match on the first token. -/
def isinShape (p : List Char) : Bool :=
  decide (10 ≤ p.length) && decide (p.length ≤ 12) && p.all isUpperAlnumC

/-- `PDFParser.extract_bond_row_data` (`logic.py:319-465`). -/
def extract_bond_row_data (line : List Char) : BondRow :=
  match splitWS line with
  | [] => ⟨[], none, "COP".data, 0, 0, 0, 0⟩
  | p0 :: rest =>
    let isin := if isinShape p0 then p0 else []
    let st := rest.foldl tokStep ⟨none, "COP".data, []⟩
    let fa := assignFields st.nums
    ⟨isin, st.mat, st.denom, fa.Coupon, fa.Yield, fa.Price, fa.Nominal⟩

/-! ### `PDFParser.parse_omd` table scan (`logic.py:279-317`)

The settlement-date regex of `parse_omd` is independent of the table scan and
is not needed by any claim; the model covers the per-line state machine that
produces the two row sequences.  The source also stores the section label and
the raw line into each row dict ("Type"/"Raw"); in the model the section
membership is expressed by which output sequence a row is appended to. -/

inductive ScanState where
  | NOSECTION
  | RECOGIDOS
  | ENTREGADOS
deriving DecidableEq, Repr

def isRecogidosHeader (line : List Char) : Bool :=
  containsSub "TES RECIBIDOS POR LA NACIÓN".data line ||
  containsSub "TÍTULOS RECOGIDOS".data (pyUpperL line)

def isEntregadosHeader (line : List Char) : Bool :=
  containsSub "TES ENTREGADOS POR LA NACIÓN".data line ||
  containsSub "TÍTULOS ENTREGADOS".data (pyUpperL line)

def isTableHeader (line : List Char) : Bool :=
  containsSub "CÓDIGO ISIN".data line || containsSub "VENCIMIENTO".data line

/-- `re.match(r'^[A-Z0-9]{10,12}', line)`: at least ten leading
upper-alphanumeric characters. -/
def isBondLine (line : List Char) : Bool :=
  decide (10 ≤ line.length) && (line.take 10).all isUpperAlnumC

structure ScanAcc where
  state : ScanState
  recogidos : List BondRow
  entregados : List BondRow
deriving Repr

/-- One iteration of the line loop (`logic.py:291-315`). -/
def scanStep (acc : ScanAcc) (rawLine : List Char) : ScanAcc :=
  let line := pyStrip rawLine
  if isRecogidosHeader line then { acc with state := .RECOGIDOS }
  else if isEntregadosHeader line then { acc with state := .ENTREGADOS }
  else if isTableHeader line then acc
  else if isBondLine line then
    let row := extract_bond_row_data line
    match acc.state with
    | .RECOGIDOS => { acc with recogidos := acc.recogidos ++ [row] }
    | .ENTREGADOS => { acc with entregados := acc.entregados ++ [row] }
    | .NOSECTION => acc
  else acc

/-- The table-scanning part of `parse_omd`: fold the line loop from the
initial `current_section = None` state and return the two row sequences. -/
def parse_omd_rows (lines : List (List Char)) : List BondRow × List BondRow :=
  let acc := lines.foldl scanStep ⟨.NOSECTION, [], []⟩
  (acc.recogidos, acc.entregados)

/-! ### The per-row calculation loop of `src/app.py` (lines 99-174)

One row of the edited table.  The `Option` fields mark the conversions the
loop performs inside its `try` block: `pd.to_datetime(row["Vencimiento"])` and
the four `float(...)` calls all raise on malformed cells, which the model
expresses as `none`. -/

structure InputRow where
  tipo : List Char
  isin : List Char
  venc : Option Date
  cupon : Option ℚ
  tasa : Option ℚ
  precio : Option ℚ
  nominal : Option ℚ
  denom : List Char
deriving DecidableEq, Repr

/-- The per-row record appended to `results` (`app.py:151-167`), restricted to
the fields the claims are about. -/
structure RowResult where
  tipo : List Char
  isin : List Char
  maturity : Date
  nominalOrig : ℚ
  nominalCop : ℚ
  dirtyPct : ℚ
  cleanPct : ℚ
  accPct : ℚ
  valorCosto : ℚ
  efecto : ℚ
  indexacion : ℚ
  denom : List Char
deriving DecidableEq, Repr

/-- The body of the `try` block (`app.py:107-167`) for one row: `none` models
any raised exception (missing/invalid field, or the 3-name unpacking of
`calculate_clean_price_formula`'s result failing because the matured branch
returns only 2 values).  The percent fields are divided by 100 on entry as in
lines 111-113; sign normalization (lines 117-120) precedes valuation. -/
def computeRow (fpow : ℚ → ℚ → ℚ) (settlement_date : Date)
    (uvr_spot inflation : ℚ) (row : InputRow) : Option RowResult :=
  match row.venc, row.cupon, row.tasa, row.precio, row.nominal with
  | some maturity, some cup, some tas, some pre, some nominal0 =>
    let coupon := cup / 100
    let yield_rate := tas / 100
    let dirty_price_pct := pre / 100
    let nominal_orig :=
      if row.tipo = "Recogido".data && decide (0 < nominal0) then -nominal0
      else if row.tipo = "Entregado".data && decide (nominal0 < 0) then |nominal0|
      else nominal0
    match calculate_clean_price_formula fpow yield_rate coupon maturity settlement_date with
    | .triple _ acc_int_val _ =>
      let acc_int_pct := acc_int_val / 100
      let clean_price_pct := dirty_price_pct - acc_int_pct
      let uvr_val := uvr_spot
      let nominal_cop :=
        if row.denom = "UVR".data then nominal_orig * uvr_val else nominal_orig
      let valor_costo := nominal_cop * dirty_price_pct
      let effect := calculate_coupon_effect settlement_date maturity coupon nominal_cop row.tipo
      let uvr_end := calculate_uvr_forward fpow uvr_val inflation settlement_date
      let indexation : ℚ :=
        if row.denom = "UVR".data then nominal_orig * uvr_end - nominal_orig * uvr_val else 0
      some
        { tipo := row.tipo, isin := row.isin, maturity := maturity,
          nominalOrig := nominal_orig, nominalCop := nominal_cop,
          dirtyPct := dirty_price_pct, cleanPct := clean_price_pct,
          accPct := acc_int_pct, valorCosto := valor_costo, efecto := effect,
          indexacion := indexation, denom := row.denom }
    | .pair2 _ _ => none
    | .raiseErr => none
  | _, _, _, _, _ => none

/-- The running accumulators initialized at `app.py:99-104`. -/
structure Totals where
  monto_canjeado : ℚ
  saldo_deuda : ℚ
  indexaciones_total : ℚ
  efectos_cupones : ℚ
  valor_giro_total : ℚ
deriving DecidableEq, Repr

def Totals.init : Totals := ⟨0, 0, 0, 0, 0⟩

/-- The accumulation statements (`app.py:143-149`) for one successful row. -/
def stepTotals (t : Totals) (r : RowResult) : Totals :=
  { monto_canjeado :=
      t.monto_canjeado + (if r.tipo = "Recogido".data then |r.nominalCop| else 0),
    saldo_deuda := t.saldo_deuda + r.nominalCop,
    indexaciones_total := t.indexaciones_total + r.indexacion,
    efectos_cupones := t.efectos_cupones + r.efecto,
    valor_giro_total := t.valor_giro_total + r.valorCosto }

/-- The `for index, row in edited_df.iterrows()` loop (`app.py:106-170`):
successful rows append their result and accumulate into the totals, a row
whose `try` block raises is reported by its index (`st.error(...)`, modelled
as the error-index list) and contributes nothing.  Addition on the exact
rationals is associative/commutative, so accumulating at the tail recursion
yields the same totals as the source's in-order `+=`. -/
def rowLoop (fpow : ℚ → ℚ → ℚ) (settlement_date : Date) (uvr_spot inflation : ℚ) :
    List InputRow → Nat → List RowResult × Totals × List Nat
  | [], _ => ([], Totals.init, [])
  | row :: rows, idx =>
    let rest := rowLoop fpow settlement_date uvr_spot inflation rows (idx + 1)
    match computeRow fpow settlement_date uvr_spot inflation row with
    | some rr => (rr :: rest.1, stepTotals rest.2.1 rr, rest.2.2)
    | none => (rest.1, rest.2.1, idx :: rest.2.2)

/-- Output of one full calculation pass: the detailed results, the totals, the
reported error row indices, and the three derived figures of
`app.py:172-174`. -/
structure RunOutput where
  results : List RowResult
  totals : Totals
  errors : List Nat
  valor_giro_final : ℚ
  cfn : ℚ
  resultado_general : ℚ
deriving DecidableEq, Repr

/-- The whole calculation pass (`app.py:106-174`): the row loop from index 0
followed by `valor_giro_final = -(valor_giro_total)`,
`cfn = valor_giro_final + efectos_cupones` and
`resultado_general = saldo_deuda + (cfn + indexaciones_total)`. -/
def runPortfolio (fpow : ℚ → ℚ → ℚ) (settlement_date : Date)
    (uvr_spot inflation : ℚ) (rows : List InputRow) : RunOutput :=
  let out := rowLoop fpow settlement_date uvr_spot inflation rows 0
  let t := out.2.1
  let valor_giro_final := -(t.valor_giro_total)
  let cfn := valor_giro_final + t.efectos_cupones
  let resultado_general := t.saldo_deuda + (cfn + t.indexaciones_total)
  ⟨out.1, t, out.2.2, valor_giro_final, cfn, resultado_general⟩

/-! ### Derived and spec-side definitions used by the claim statements -/

/-- The ordered numeric-token list of a bond line: what the classification
loop of `extract_bond_row_data` appends into `nums`. -/
def rowNums (line : List Char) : List ℚ :=
  (((splitWS line).drop 1).foldl tokStep ⟨none, "COP".data, []⟩).nums

/-- The number parser exactly as the claim words it: only a single
TRAILING `'%'` is stripped before numeric parsing (the source instead removes
every `'%'` wherever it occurs).  Stated from the spec text for comparison
with the source's `parse_number`. -/
def parse_number_claimed (t : List Char) : Option ℚ :=
  let n := if t.getLast? = some '%' then t.dropLast else t
  let n :=
    if n.contains ',' && n.contains '.' then
      (n.filter (fun c => ! c = '.')).map (fun c => if c = ',' then '.' else c)
    else if n.contains ',' then
      n.map (fun c => if c = ',' then '.' else c)
    else if n.contains '.' then
      n.filter (fun c => ! c = '.')
    else n
  pyFloat n

/-- The amended claim's parser: every `'%'` character is stripped (anywhere in
the token), then the separator rules and the float parse are applied, with
`none` rather than an exception on malformed input. -/
def parse_number_amended (t : List Char) : Option ℚ :=
  let n := t.filter (fun c => ! c = '%')
  let n :=
    if n.contains ',' && n.contains '.' then
      (n.filter (fun c => ! c = '.')).map (fun c => if c = ',' then '.' else c)
    else if n.contains ',' then
      n.map (fun c => if c = ',' then '.' else c)
    else if n.contains '.' then
      n.filter (fun c => ! c = '.')
    else n
  pyFloat n

/-- Sample rows used by concrete witnesses. -/
def sampleRecogido : InputRow :=
  ⟨"Recogido".data, "CO1234567890".data, some ⟨2026, 1, 1⟩,
    some 10, some 10, some 90, some 1000, "COP".data⟩

def sampleEntregadoUvr : InputRow :=
  ⟨"Entregado".data, "CO0987654321".data, some ⟨2027, 3, 15⟩,
    some 5, some 7, some 95, some 2000, "UVR".data⟩

/-- A malformed row: its maturity cell cannot be converted to a timestamp. -/
def sampleBad : InputRow :=
  ⟨"Recogido".data, "XX".data, none, some 10, some 10, some 90, some 1000, "COP".data⟩

/-- The valued record the loop produces for `sampleRecogido` (with the
constant-1 stand-in for `**`, settlement 2025-06-01, index spot 100,
inflation 3%). -/
def sampleRecogidoResult : RowResult :=
  ⟨"Recogido".data, "CO1234567890".data, ⟨2026, 1, 1⟩, -1000, -1000,
    9/10, 1567/1825, 151/3650, -900, 0, 0, "COP".data⟩

/-- The valued record the loop produces for `sampleEntregadoUvr` (same
parameters). -/
def sampleEntregadoUvrResult : RowResult :=
  ⟨"Entregado".data, "CO0987654321".data, ⟨2027, 3, 15⟩, 2000, 200000,
    19/20, 6857/7300, 39/3650, 190000, 0, 0, "UVR".data⟩

/-! ### Helper lemmas -/

theorem dateLtB_year_le {a b : Date} (h : dateLtB a b = true) : a.year ≤ b.year := by
  simp only [dateLtB, Bool.or_eq_true, Bool.and_eq_true, decide_eq_true_eq] at h
  rcases h with h | ⟨h, _⟩ <;> omega

theorem daysInMonth_two (y : Int) : daysInMonth y 2 = if isLeap y then 29 else 28 := by
  norm_num [daysInMonth]

theorem assignFields_anchor (nums : List ℚ) (i : Nat)
    (h : priceIdx nums = some i) :
    (assignFields nums).Price = nums.getD i 0 ∧
    (assignFields nums).Nominal =
      (if i + 1 < nums.length then nums.getD (i + 1) 0 else 0) ∧
    (i = 1 → (assignFields nums).Yield = nums.getD 0 0 ∧
      (assignFields nums).Coupon = 0) ∧
    (2 ≤ i → (assignFields nums).Yield = nums.getD (i - 1) 0 ∧
      (assignFields nums).Coupon = nums.getD (i - 2) 0) ∧
    (i = 0 → (assignFields nums).Coupon = 0 ∧ (assignFields nums).Yield = 0) := by
  rcases i with _ | _ | k
  · simp [assignFields, h]
  · simp [assignFields, h]
  · simp [assignFields, h]

theorem scanStep_no_header (acc : ScanAcc) (hst : acc.state = .NOSECTION)
    (l : List Char) (h1 : isRecogidosHeader (pyStrip l) = false)
    (h2 : isEntregadosHeader (pyStrip l) = false) :
    scanStep acc l = acc := by
  unfold scanStep
  simp only [h1, h2, hst, Bool.false_eq_true, if_false]
  split
  · rfl
  · split <;> rfl

theorem foldl_scan_no_headers (ls : List (List Char)) (acc : ScanAcc)
    (hst : acc.state = .NOSECTION)
    (h : ∀ l ∈ ls, isRecogidosHeader (pyStrip l) = false ∧
      isEntregadosHeader (pyStrip l) = false) :
    ls.foldl scanStep acc = acc := by
  induction ls with
  | nil => rfl
  | cons l ls ih =>
    rw [List.foldl_cons,
      scanStep_no_header acc hst l (h l (List.mem_cons_self l ls)).1
        (h l (List.mem_cons_self l ls)).2]
    exact ih fun x hx => h x (List.mem_cons_of_mem l hx)

theorem extract_fields_eq (line : List Char) :
    (extract_bond_row_data line).Coupon = (assignFields (rowNums line)).Coupon ∧
    (extract_bond_row_data line).Yield = (assignFields (rowNums line)).Yield ∧
    (extract_bond_row_data line).Price = (assignFields (rowNums line)).Price ∧
    (extract_bond_row_data line).Nominal = (assignFields (rowNums line)).Nominal := by
  cases hs : splitWS line <;>
    simp [extract_bond_row_data, rowNums, hs, assignFields, priceIdx]

/-- Destructuring of a successful `computeRow`: the result copies the row's
role and denomination, its face value is the sign-normalized input face value,
and its indexation is the inline `app.py:139-141` computation. -/
theorem computeRow_fields {fpow : ℚ → ℚ → ℚ} {sd : Date} {u infl : ℚ}
    {row : InputRow} {rr : RowResult}
    (h : computeRow fpow sd u infl row = some rr) :
    rr.tipo = row.tipo ∧ rr.denom = row.denom ∧
    (∃ nominal0, row.nominal = some nominal0 ∧
      rr.nominalOrig =
        (if row.tipo = "Recogido".data && decide (0 < nominal0) then -nominal0
         else if row.tipo = "Entregado".data && decide (nominal0 < 0) then |nominal0|
         else nominal0)) ∧
    rr.indexacion =
      (if row.denom = "UVR".data then
        rr.nominalOrig * calculate_uvr_forward fpow u infl sd - rr.nominalOrig * u
       else 0) := by
  cases hv : row.venc with
  | none => simp [computeRow, hv] at h
  | some maturity =>
  cases hcu : row.cupon with
  | none => simp [computeRow, hv, hcu] at h
  | some cup =>
  cases hta : row.tasa with
  | none => simp [computeRow, hv, hcu, hta] at h
  | some tas =>
  cases hpr : row.precio with
  | none => simp [computeRow, hv, hcu, hta, hpr] at h
  | some pre =>
  cases hno : row.nominal with
  | none => simp [computeRow, hv, hcu, hta, hpr, hno] at h
  | some nominal0 =>
  cases hcp : calculate_clean_price_formula fpow (tas / 100) (cup / 100) maturity sd with
  | pair2 a b => simp [computeRow, hv, hcu, hta, hpr, hno, hcp] at h
  | raiseErr => simp [computeRow, hv, hcu, hta, hpr, hno, hcp] at h
  | triple a b c =>
    simp only [computeRow, hv, hcu, hta, hpr, hno, hcp, Option.some.injEq] at h
    subst h
    exact ⟨rfl, rfl, ⟨nominal0, rfl, rfl⟩, rfl⟩

/-- Results and totals of the row loop do not depend on the starting index
(only the reported error indices do). -/
theorem rowLoop_idx_inv (fpow : ℚ → ℚ → ℚ) (sd : Date) (u infl : ℚ)
    (rows : List InputRow) : ∀ idx idx' : Nat,
    (rowLoop fpow sd u infl rows idx).1 = (rowLoop fpow sd u infl rows idx').1 ∧
    (rowLoop fpow sd u infl rows idx).2.1 = (rowLoop fpow sd u infl rows idx').2.1 := by
  induction rows with
  | nil => exact fun _ _ => ⟨rfl, rfl⟩
  | cons row rows ih =>
    intro idx idx'
    cases hc : computeRow fpow sd u infl row with
    | some rr =>
      simp only [rowLoop, hc]
      exact ⟨by rw [(ih (idx + 1) (idx' + 1)).1],
        by rw [(ih (idx + 1) (idx' + 1)).2]⟩
    | none =>
      simp only [rowLoop, hc]
      exact ⟨(ih (idx + 1) (idx' + 1)).1, (ih (idx + 1) (idx' + 1)).2⟩

/-- When every row computes successfully, the loop reports no errors. -/
theorem rowLoop_ok_errors (fpow : ℚ → ℚ → ℚ) (sd : Date) (u infl : ℚ)
    (rows : List InputRow)
    (h : ∀ r ∈ rows, (computeRow fpow sd u infl r).isSome = true) :
    ∀ idx, (rowLoop fpow sd u infl rows idx).2.2 = [] := by
  induction rows with
  | nil => exact fun _ => rfl
  | cons row rows ih =>
    intro idx
    obtain ⟨rr, hc⟩ := Option.isSome_iff_exists.mp (h row (List.mem_cons_self row rows))
    simp only [rowLoop, hc]
    exact ih (fun r hr => h r (List.mem_cons_of_mem row hr)) (idx + 1)

/-- Every record in the loop's result list comes from a successful
`computeRow` on some input row. -/
theorem rowLoop_results_from (fpow : ℚ → ℚ → ℚ) (sd : Date) (u infl : ℚ)
    (rows : List InputRow) : ∀ (idx : Nat) (r : RowResult),
    r ∈ (rowLoop fpow sd u infl rows idx).1 →
    ∃ row, computeRow fpow sd u infl row = some r := by
  induction rows with
  | nil => intro idx r hr; simp [rowLoop] at hr
  | cons row rows ih =>
    intro idx r hr
    cases hc : computeRow fpow sd u infl row with
    | some rr =>
      simp only [rowLoop, hc, List.mem_cons] at hr
      rcases hr with rfl | hr
      · exact ⟨row, hc⟩
      · exact ih (idx + 1) r hr
    | none =>
      simp only [rowLoop, hc] at hr
      exact ih (idx + 1) r hr

/-- The loop's accumulated totals are the componentwise sums over its result
list. -/
theorem rowLoop_totals_sums (fpow : ℚ → ℚ → ℚ) (sd : Date) (u infl : ℚ)
    (rows : List InputRow) : ∀ idx : Nat,
    (rowLoop fpow sd u infl rows idx).2.1.monto_canjeado =
      ((rowLoop fpow sd u infl rows idx).1.map
        (fun r => if r.tipo = "Recogido".data then |r.nominalCop| else 0)).sum ∧
    (rowLoop fpow sd u infl rows idx).2.1.saldo_deuda =
      ((rowLoop fpow sd u infl rows idx).1.map (fun r => r.nominalCop)).sum ∧
    (rowLoop fpow sd u infl rows idx).2.1.indexaciones_total =
      ((rowLoop fpow sd u infl rows idx).1.map (fun r => r.indexacion)).sum ∧
    (rowLoop fpow sd u infl rows idx).2.1.efectos_cupones =
      ((rowLoop fpow sd u infl rows idx).1.map (fun r => r.efecto)).sum ∧
    (rowLoop fpow sd u infl rows idx).2.1.valor_giro_total =
      ((rowLoop fpow sd u infl rows idx).1.map (fun r => r.valorCosto)).sum := by
  induction rows with
  | nil => intro idx; simp [rowLoop, Totals.init]
  | cons row rows ih =>
    intro idx
    cases hc : computeRow fpow sd u infl row with
    | some rr =>
      obtain ⟨h1, h2, h3, h4, h5⟩ := ih (idx + 1)
      simp only [rowLoop, hc, stepTotals, List.map_cons, List.sum_cons]
      exact ⟨by rw [h1]; ring, by rw [h2]; ring, by rw [h3]; ring,
        by rw [h4]; ring, by rw [h5]; ring⟩
    | none =>
      simp only [rowLoop, hc]
      exact ih (idx + 1)

/-- Mapping an if-contribution equals mapping over the filtered sublist. -/
theorem map_ite_sum_eq_filter_sum (l : List RowResult)
    (P : RowResult → Prop) [DecidablePred P] (f : RowResult → ℚ) :
    (l.map (fun r => if P r then f r else 0)).sum =
      ((l.filter (fun r => decide (P r))).map f).sum := by
  induction l with
  | nil => rfl
  | cons r l ih =>
    by_cases h : P r
    · simp [h, ih]
    · simp [h, ih]

theorem list_sum_nonpos {l : List ℚ} (h : ∀ x ∈ l, x ≤ 0) : l.sum ≤ 0 := by
  induction l with
  | nil => simp
  | cons x l ih =>
    simp only [List.sum_cons]
    have hx := h x (List.mem_cons_self x l)
    have hl := ih fun y hy => h y (List.mem_cons_of_mem x hy)
    linarith

end OMD

namespace OMD

/-! ### Claim theorems -/

/-- C1: the claim states that for settlement ≥ maturity the valuation returns
the triple (0, 0, 0).  The code instead executes `return 0.0, 0.0`
(`logic.py:41`) — a 2-tuple, while every successful path returns a 3-tuple and
the only caller unpacks three values; the matured branch therefore yields a
`ValueError` at the call site rather than a defined zero valuation.  This
theorem evaluates the code on the claim's precondition: the result is the
2-value `pair2 0 0`, which is distinct from every 3-value `triple`. -/
theorem c1_matured_branch_returns_two_values (fpow : ℚ → ℚ → ℚ) (y c : ℚ)
    (mat set_d : Date) (h : dateGeB set_d mat = true) :
    calculate_clean_price_formula fpow y c mat set_d = .pair2 0 0 ∧
      ∀ a b d, PriceResult.pair2 0 0 ≠ PriceResult.triple a b d := by
  refine ⟨?_, fun a b d => by simp⟩
  simp [calculate_clean_price_formula, h]

/-- C1 witness: a concrete matured instrument (settlement = maturity). -/
theorem c1_matured_branch_returns_two_values_witness :
    calculate_clean_price_formula (fun _ _ => 1) (1/10) (1/10)
        ⟨2025, 1, 1⟩ ⟨2025, 1, 1⟩ = .pair2 0 0 ∧
      ∀ a b d, PriceResult.pair2 0 0 ≠ PriceResult.triple a b d :=
  c1_matured_branch_returns_two_values _ _ _ _ _ (by decide)

/-- C6: whenever the valuation returns its normal 3-tuple, the clean price is
exactly the dirty price minus the accrued interest (`logic.py:117-119`). -/
theorem c6_clean_price_identity (fpow : ℚ → ℚ → ℚ) (y c : ℚ)
    (mat set_d : Date) (cl ac dy : ℚ)
    (h : calculate_clean_price_formula fpow y c mat set_d = .triple cl ac dy) :
    cl = dy - ac := by
  unfold calculate_clean_price_formula at h
  split at h
  · simp at h
  · rcases hw : couponWalk set_d (mat.year - set_d.year + 1).toNat mat with _ | _ | ⟨nxt, prv⟩ <;>
      simp only [hw] at h
    · simp at h
    · simp at h
    · simp only [PriceResult.triple.injEq] at h
      obtain ⟨h1, h2, h3⟩ := h
      rw [← h1, ← h2, ← h3]

attribute [local semireducible] Rat.add Rat.mul Rat.sub Rat.inv in
/-- C6 witness: a concrete bond priced half a year before an annual coupon. -/
theorem c6_clean_price_identity_witness :
    calculate_clean_price_formula (fun _ _ => 1) (1/10) (1/10)
        ⟨2026, 1, 1⟩ ⟨2025, 6, 1⟩ = .triple (7728/73) (302/73) 110 ∧
      (7728/73 : ℚ) = 110 - 302/73 :=
  ⟨by decide, c6_clean_price_identity (fun _ _ => 1) (1/10) (1/10)
      ⟨2026, 1, 1⟩ ⟨2025, 6, 1⟩ _ _ _ (by decide)⟩

attribute [local semireducible] Rat.add Rat.mul Rat.sub Rat.inv in
/-- C2: the row extractor's anchor heuristic — with `i` the index of the first
numeric token in [40, 160]: price is the value at `i`, face value the value at
`i+1` (0 when absent), and the rate fields are assigned by the position of the
anchor (`i = 1`: yield at 0, coupon 0; `i ≥ 2`: yield at `i-1`, coupon at
`i-2`; `i = 0`: both 0).  On the sample line the extractor produces
ISIN CO1234567890, maturity 2026-12-15, denomination COP (the spec's
LOCAL_CURRENCY), coupon 0, yield 10.655, price 90.471, face value
9716595800000. -/
theorem c2_row_extraction_heuristic :
    (∀ (line : List Char) (i : Nat), priceIdx (rowNums line) = some i →
      (extract_bond_row_data line).Price = (rowNums line).getD i 0 ∧
      (extract_bond_row_data line).Nominal =
        (if i + 1 < (rowNums line).length then (rowNums line).getD (i + 1) 0 else 0) ∧
      (i = 1 → (extract_bond_row_data line).Yield = (rowNums line).getD 0 0 ∧
        (extract_bond_row_data line).Coupon = 0) ∧
      (2 ≤ i → (extract_bond_row_data line).Yield = (rowNums line).getD (i - 1) 0 ∧
        (extract_bond_row_data line).Coupon = (rowNums line).getD (i - 2) 0) ∧
      (i = 0 → (extract_bond_row_data line).Coupon = 0 ∧
        (extract_bond_row_data line).Yield = 0)) ∧
    extract_bond_row_data
        "CO1234567890 15-dic-26 COP 0,00% 10,655% 90,471 9.716.595.800.000".data =
      ⟨"CO1234567890".data, some ⟨2026, 12, 15⟩, "COP".data,
        0, 10655/1000, 90471/1000, 9716595800000⟩ := by
  constructor
  · intro line i h
    obtain ⟨hc, hy, hp, hn⟩ := extract_fields_eq line
    rw [hc, hy, hp, hn]
    exact assignFields_anchor _ _ h
  · decide

attribute [local semireducible] Rat.add Rat.mul Rat.sub Rat.inv in
/-- C2 witness: a line whose only numeric token 50 is the anchor at index 0. -/
theorem c2_row_extraction_heuristic_witness :
    (extract_bond_row_data "AAAAAAAAAA 50".data).Price =
      (rowNums "AAAAAAAAAA 50".data).getD 0 0 :=
  ((c2_row_extraction_heuristic.1 "AAAAAAAAAA 50".data 0 (by decide))).1

/-- C9: a February-29 maturity with settlement strictly before maturity makes
the valuation raise: the backward coupon-date walk immediately calls
`replace(year = year - 1)` on the Feb-29 timestamp, and the preceding year of
a leap year is never a leap year, so `replace` raises `ValueError`
(`logic.py:54-71`). -/
theorem c9_feb29_maturity_raises (fpow : ℚ → ℚ → ℚ) (y c : ℚ)
    (mat set_d : Date) (hval : validDate mat = true)
    (hm : mat.month = 2) (hd : mat.day = 29)
    (hlt : dateLtB set_d mat = true) :
    calculate_clean_price_formula fpow y c mat set_d = .raiseErr := by
  have hge : dateGeB set_d mat = false := by simp [dateGeB, hlt]
  have hyle := dateLtB_year_le hlt
  obtain ⟨k, hk⟩ : ∃ k, (mat.year - set_d.year + 1).toNat = k + 1 :=
    ⟨(mat.year - set_d.year).toNat, by omega⟩
  have hleap : isLeap mat.year = true := by
    by_contra hnl
    simp only [Bool.not_eq_true] at hnl
    simp only [validDate, hm, hd, Bool.and_eq_true, decide_eq_true_eq] at hval
    rw [daysInMonth_two, hnl] at hval
    simp at hval
  have h4 : mat.year % 4 = 0 := by
    simp only [isLeap, Bool.and_eq_true, decide_eq_true_eq] at hleap
    exact hleap.1
  have hnl : isLeap (mat.year - 1) = false := by
    have h3mod : ¬ ((mat.year - 1) % 4 = 0) := by omega
    simp [isLeap, h3mod]
  have hrep : replaceYear mat (mat.year - 1) = none := by
    have hv : validDate ⟨mat.year - 1, mat.month, mat.day⟩ = false := by
      simp only [validDate, hm, hd]
      rw [daysInMonth_two, hnl]
      simp
    simp [replaceYear, hv]
  unfold calculate_clean_price_formula
  simp only [hge, Bool.false_eq_true, if_false, hk, couponWalk, hrep]

/-- C9 witness: maturity 2028-02-29, settlement 2027-01-01. -/
theorem c9_feb29_maturity_raises_witness :
    calculate_clean_price_formula (fun _ _ => 1) (1/10) (1/10)
        ⟨2028, 2, 29⟩ ⟨2027, 1, 1⟩ = .raiseErr :=
  c9_feb29_maturity_raises _ _ _ _ _ (by decide) rfl rfl (by decide)

attribute [local semireducible] Rat.add Rat.mul Rat.sub Rat.inv in
/-- C8 counterexample: on the token `5%0` the source's parser removes the
interior `'%'` (`replace('%','')` removes every occurrence) and parses 50,
while the claim's parser — which strips only a trailing `'%'` — rejects the
token as malformed. -/
theorem c8_number_parser_counterexample :
    parse_number "5%0".data = some 50 ∧ parse_number_claimed "5%0".data = none := by
  constructor <;> decide

/-- C8 (amended): the number parser strips every `'%'` character (not only a
trailing one); then, with both `.` and `,` present it drops `.` and turns `,`
into the decimal point, with only `,` present it turns `,` into the decimal
point, with only `.` present it drops `.`; and it returns `none` ("not a
number") instead of raising on malformed input. -/
theorem c8_number_parser_amended (t : List Char) :
    parse_number t = parse_number_amended t := rfl

/-- C10: in the document scanner, any line arriving before the first
section-header line — the scanner still in its initial no-section state — is
processed (bond-shaped lines are even run through the row extractor) but
appended to neither the collected nor the delivered sequence: the scan output
is exactly the scan of the remaining lines. -/
theorem c10_pre_section_rows_discarded (pre : List (List Char))
    (line : List Char) (rest : List (List Char))
    (hpre : ∀ l ∈ pre, isRecogidosHeader (pyStrip l) = false ∧
      isEntregadosHeader (pyStrip l) = false)
    (hline1 : isRecogidosHeader (pyStrip line) = false)
    (hline2 : isEntregadosHeader (pyStrip line) = false)
    (_hbond : isBondLine (pyStrip line) = true) :
    parse_omd_rows (pre ++ line :: rest) = parse_omd_rows rest := by
  unfold parse_omd_rows
  rw [List.foldl_append, foldl_scan_no_headers pre _ rfl hpre, List.foldl_cons,
    scanStep_no_header _ rfl line hline1 hline2]

/-- C3: one failing record among successful ones does not abort the run —
the outputs and totals equal those of the portfolio without the bad record,
with no error reported there, and the bad record is reported by its row
index. -/
theorem c3_one_bad_row_does_not_abort (fpow : ℚ → ℚ → ℚ) (sd : Date)
    (u infl : ℚ) (pre post : List InputRow) (bad : InputRow)
    (hbad : computeRow fpow sd u infl bad = none)
    (hok : ∀ r ∈ pre ++ post, (computeRow fpow sd u infl r).isSome = true) :
    (runPortfolio fpow sd u infl (pre ++ bad :: post)).results =
      (runPortfolio fpow sd u infl (pre ++ post)).results ∧
    (runPortfolio fpow sd u infl (pre ++ bad :: post)).totals =
      (runPortfolio fpow sd u infl (pre ++ post)).totals ∧
    (runPortfolio fpow sd u infl (pre ++ bad :: post)).errors = [pre.length] ∧
    (runPortfolio fpow sd u infl (pre ++ post)).errors = [] ∧
    (runPortfolio fpow sd u infl (pre ++ bad :: post)).resultado_general =
      (runPortfolio fpow sd u infl (pre ++ post)).resultado_general := by
  have key : ∀ (pre' : List InputRow), (∀ r ∈ pre' ++ post, (computeRow fpow sd u infl r).isSome = true) →
      ∀ idx : Nat,
      (rowLoop fpow sd u infl (pre' ++ bad :: post) idx).1 =
        (rowLoop fpow sd u infl (pre' ++ post) idx).1 ∧
      (rowLoop fpow sd u infl (pre' ++ bad :: post) idx).2.1 =
        (rowLoop fpow sd u infl (pre' ++ post) idx).2.1 ∧
      (rowLoop fpow sd u infl (pre' ++ bad :: post) idx).2.2 = [idx + pre'.length] := by
    intro pre'
    induction pre' with
    | nil =>
      intro hok' idx
      simp only [List.nil_append, rowLoop, hbad]
      refine ⟨(rowLoop_idx_inv fpow sd u infl post (idx + 1) idx).1,
        (rowLoop_idx_inv fpow sd u infl post (idx + 1) idx).2, ?_⟩
      rw [rowLoop_ok_errors fpow sd u infl post hok' (idx + 1)]
      simp
    | cons p pre' ih =>
      intro hok' idx
      obtain ⟨rr, hp⟩ := Option.isSome_iff_exists.mp
        (hok' p (List.mem_cons_self p (pre' ++ post)))
      have ih' := ih (fun r hr => hok' r (List.mem_cons_of_mem p hr)) (idx + 1)
      simp only [List.cons_append, rowLoop, hp, List.append_eq]
      refine ⟨by rw [ih'.1], by rw [ih'.2.1], ?_⟩
      rw [ih'.2.2]
      simp only [List.length_cons]
      congr 1
      omega
  obtain ⟨k1, k2, k3⟩ := key pre hok 0
  have herr0 : (rowLoop fpow sd u infl (pre ++ post) 0).2.2 = [] :=
    rowLoop_ok_errors fpow sd u infl (pre ++ post) hok 0
  refine ⟨k1, ?_, ?_, herr0, ?_⟩
  · simp only [runPortfolio, k2]
  · simp only [runPortfolio, k3, Nat.zero_add]
  · simp only [runPortfolio, k2]

attribute [local semireducible] Rat.add Rat.mul Rat.sub Rat.inv in
/-- C3 witness: a two-row portfolio whose second row is malformed produces the
totals of the first row alone and reports row index 1. -/
theorem c3_one_bad_row_does_not_abort_witness :
    (runPortfolio (fun _ _ => 1) ⟨2025, 6, 1⟩ 100 (3/100)
        ([sampleRecogido] ++ sampleBad :: [])).totals =
      (runPortfolio (fun _ _ => 1) ⟨2025, 6, 1⟩ 100 (3/100)
        ([sampleRecogido] ++ [])).totals ∧
    (runPortfolio (fun _ _ => 1) ⟨2025, 6, 1⟩ 100 (3/100)
        ([sampleRecogido] ++ sampleBad :: [])).errors = [[sampleRecogido].length] := by
  have h := c3_one_bad_row_does_not_abort (fun _ _ => 1) ⟨2025, 6, 1⟩ 100 (3/100)
    [sampleRecogido] [] sampleBad rfl
    (by
      intro r hr
      simp only [List.append_nil, List.mem_singleton] at hr
      subst hr
      decide)
  exact ⟨h.2.1, h.2.2.1⟩

/-- C4: the aggregator's totals are exactly the claimed sums over the valued
records — amount exchanged sums |local face value| over COLLECTED records
only, the balance sums the signed local face values over all records, the
gross outlay is the cost sum negated once at the end, net fiscal cost is the
negated outlay plus the total coupon effect, and the overall result is
balance + net fiscal cost + total indexation. -/
theorem c4_totals_formulas (fpow : ℚ → ℚ → ℚ) (sd : Date) (u infl : ℚ)
    (rows : List InputRow) :
    (runPortfolio fpow sd u infl rows).totals.monto_canjeado =
      (((runPortfolio fpow sd u infl rows).results.filter
          (fun r => decide (r.tipo = "Recogido".data))).map
        (fun r => |r.nominalCop|)).sum ∧
    (runPortfolio fpow sd u infl rows).totals.saldo_deuda =
      ((runPortfolio fpow sd u infl rows).results.map (fun r => r.nominalCop)).sum ∧
    (runPortfolio fpow sd u infl rows).valor_giro_final =
      -(((runPortfolio fpow sd u infl rows).results.map (fun r => r.valorCosto)).sum) ∧
    (runPortfolio fpow sd u infl rows).cfn =
      -(((runPortfolio fpow sd u infl rows).results.map (fun r => r.valorCosto)).sum) +
        ((runPortfolio fpow sd u infl rows).results.map (fun r => r.efecto)).sum ∧
    (runPortfolio fpow sd u infl rows).resultado_general =
      (runPortfolio fpow sd u infl rows).totals.saldo_deuda +
        (runPortfolio fpow sd u infl rows).cfn +
        ((runPortfolio fpow sd u infl rows).results.map (fun r => r.indexacion)).sum := by
  obtain ⟨h1, h2, h3, h4, h5⟩ := rowLoop_totals_sums fpow sd u infl rows 0
  simp only [runPortfolio]
  refine ⟨?_, h2, by rw [h5], by rw [h5, h4], by rw [h3]; ring⟩
  rw [h1, map_ite_sum_eq_filter_sum]

/-- C5: sign normalization — every successfully valued COLLECTED record
carries a non-positive face value and every DELIVERED record a non-negative
one, whatever sign was entered; consequently the face-value sums over the
COLLECTED and DELIVERED records of any portfolio are ≤ 0 and ≥ 0
respectively. -/
theorem c5_sign_normalization (fpow : ℚ → ℚ → ℚ) (sd : Date) (u infl : ℚ) :
    (∀ (row : InputRow) (rr : RowResult), computeRow fpow sd u infl row = some rr →
      (rr.tipo = "Recogido".data → rr.nominalOrig ≤ 0) ∧
      (rr.tipo = "Entregado".data → 0 ≤ rr.nominalOrig)) ∧
    (∀ rows : List InputRow,
      ((((runPortfolio fpow sd u infl rows).results.filter
          (fun r => decide (r.tipo = "Recogido".data))).map
            (fun r => r.nominalOrig)).sum ≤ 0 ∧
       0 ≤ (((runPortfolio fpow sd u infl rows).results.filter
          (fun r => decide (r.tipo = "Entregado".data))).map
            (fun r => r.nominalOrig)).sum)) := by
  have part1 : ∀ (row : InputRow) (rr : RowResult),
      computeRow fpow sd u infl row = some rr →
      (rr.tipo = "Recogido".data → rr.nominalOrig ≤ 0) ∧
      (rr.tipo = "Entregado".data → 0 ≤ rr.nominalOrig) := by
    intro row rr h
    obtain ⟨htipo, -, ⟨n0, -, hnorm⟩, -⟩ := computeRow_fields h
    constructor
    · intro hrec
      rw [htipo] at hrec
      rw [hnorm]
      split_ifs with hif1 hif2
      · simp only [Bool.and_eq_true, decide_eq_true_eq] at hif1
        linarith [hif1.2]
      · simp only [Bool.and_eq_true, decide_eq_true_eq, hrec] at hif2
        exact absurd hif2.1 (by decide)
      · simp only [Bool.and_eq_true, decide_eq_true_eq, hrec, not_and, true_implies,
          not_lt] at hif1
        exact hif1
    · intro hent
      rw [htipo] at hent
      rw [hnorm]
      split_ifs with hif1 hif2
      · simp only [Bool.and_eq_true, decide_eq_true_eq, hent] at hif1
        exact absurd hif1.1 (by decide)
      · exact abs_nonneg n0
      · simp only [Bool.and_eq_true, decide_eq_true_eq, hent, not_and, true_implies,
          not_lt] at hif2
        exact hif2
  refine ⟨part1, fun rows => ⟨?_, ?_⟩⟩
  · apply list_sum_nonpos
    intro x hx
    simp only [List.mem_map] at hx
    obtain ⟨r, hr, rfl⟩ := hx
    rw [List.mem_filter] at hr
    obtain ⟨hmem, hP⟩ := hr
    obtain ⟨row, hrow⟩ := rowLoop_results_from fpow sd u infl rows 0 r hmem
    exact (part1 row r hrow).1 (of_decide_eq_true hP)
  · apply List.sum_nonneg
    intro x hx
    simp only [List.mem_map] at hx
    obtain ⟨r, hr, rfl⟩ := hx
    rw [List.mem_filter] at hr
    obtain ⟨hmem, hP⟩ := hr
    obtain ⟨row, hrow⟩ := rowLoop_results_from fpow sd u infl rows 0 r hmem
    exact (part1 row r hrow).2 (of_decide_eq_true hP)

attribute [local semireducible] Rat.add Rat.mul Rat.sub Rat.inv in
/-- C5 witness: the sample COLLECTED row, entered with positive face value
1000, is normalized to −1000 ≤ 0, and the one-row portfolio sums obey the
sign invariant. -/
theorem c5_sign_normalization_witness :
    sampleRecogidoResult.nominalOrig ≤ 0 ∧
    ((((runPortfolio (fun _ _ => 1) ⟨2025, 6, 1⟩ 100 (3/100)
        [sampleRecogido]).results.filter
          (fun r => decide (r.tipo = "Recogido".data))).map
            (fun r => r.nominalOrig)).sum ≤ 0 ∧
     0 ≤ (((runPortfolio (fun _ _ => 1) ⟨2025, 6, 1⟩ 100 (3/100)
        [sampleRecogido]).results.filter
          (fun r => decide (r.tipo = "Entregado".data))).map
            (fun r => r.nominalOrig)).sum) :=
  ⟨((c5_sign_normalization (fun _ _ => 1) ⟨2025, 6, 1⟩ 100 (3/100)).1
      sampleRecogido sampleRecogidoResult (by decide)).1 rfl,
    (c5_sign_normalization (fun _ _ => 1) ⟨2025, 6, 1⟩ 100 (3/100)).2 [sampleRecogido]⟩

/-- C7: the indexation amount of a valued record is 0 whenever the row is in
local currency, regardless of the index spot and forward values, and for an
index-linked (UVR) row it is exactly
faceValueUnits × indexForward − faceValueUnits × indexSpot. -/
theorem c7_indexation_rule (fpow : ℚ → ℚ → ℚ) (sd : Date) (u infl : ℚ)
    (row : InputRow) (rr : RowResult)
    (h : computeRow fpow sd u infl row = some rr) :
    (row.denom = "COP".data → rr.indexacion = 0) ∧
    (row.denom = "UVR".data → rr.indexacion =
      rr.nominalOrig * calculate_uvr_forward fpow u infl sd - rr.nominalOrig * u) := by
  obtain ⟨-, -, -, hidx⟩ := computeRow_fields h
  constructor
  · intro hcop
    rw [hidx, hcop]
    simp
  · intro huvr
    rw [hidx, huvr]
    simp

attribute [local semireducible] Rat.add Rat.mul Rat.sub Rat.inv in
/-- C7 witness: the sample UVR row's valued record satisfies the indexation
formula at concrete inputs. -/
theorem c7_indexation_rule_witness :
    sampleEntregadoUvrResult.indexacion =
      sampleEntregadoUvrResult.nominalOrig *
          calculate_uvr_forward (fun _ _ => 1) 100 (3/100) ⟨2025, 6, 1⟩ -
        sampleEntregadoUvrResult.nominalOrig * 100 :=
  (c7_indexation_rule (fun _ _ => 1) ⟨2025, 6, 1⟩ 100 (3/100)
    sampleEntregadoUvr sampleEntregadoUvrResult (by decide)).2 rfl

/-- C10 witness: a noise line and a bond-shaped line before any section
header leave the scan output empty. -/
theorem c10_pre_section_rows_discarded_witness :
    parse_omd_rows (["hola y adios".data] ++ "CO1234567890 90,471".data :: []) =
      parse_omd_rows [] := by
  apply c10_pre_section_rows_discarded
  · intro l hl
    simp only [List.mem_singleton] at hl
    subst hl
    exact ⟨by decide, by decide⟩
  · decide
  · decide
  · decide

end OMD
